import Mathlib

/-!
Verification of the user-management core of the ecommerce-pos-reseller-affiliate
server: data model, credential hashing, safe projection, account lifecycle,
login flow, filtered queries and demo seeding, shallowly embedded from
`src/server/src/handlers/*.ts` and `src/server/src/schema.ts`.

The persistent store (PostgreSQL accessed through drizzle-orm) is embedded as a
list of user records plus an id counter; a `select ... where` is a list filter,
an `insert ... returning` appends a record, an `update ... where ... returning`
rewrites the matching records in place.  Timestamps (`new Date()`) are natural
numbers supplied by the caller as `now`; the random salt drawn by
`Bun.password.hash` is a natural number supplied as `salt`.

Password digests are strings in the source; they are embedded symbolically by
an inductive type recording exactly the information that determines digest
equality and verification behaviour:
* `Digest.bun salt plain` stands for the PHC-formatted string produced by
  `Bun.password.hash(plain)` with the given random salt.  Two such strings are
  equal iff plaintext and salt agree (collision-freeness of argon2id), and
  `Bun.password.verify(p, d)` returns `p == plain`.
* `Digest.sha256demo plain` stands for the hex string
  `sha256(plain + 'salt_demo_2024')` produced by `hashPassword` in
  `seed_demo_users.ts`.  Two such strings are equal iff the plaintexts agree
  (collision resistance of sha256), and they are never equal to a
  PHC-formatted string.  `Bun.password.verify` throws on such a digest, since
  a bare hex string is not a recognisable password-hash format; the throw is
  embedded as `Except.error`.
-/

namespace UserCore

/-- `userRoleSchema = z.enum(['admin', 'reseller', 'user'])` from `schema.ts`. -/
inductive UserRole
  | admin
  | reseller
  | user
deriving DecidableEq, Repr

/-- Symbolic model of password digest strings (see the module comment). -/
inductive Digest
  | bun (salt : Nat) (plain : String)
  | sha256demo (plain : String)
deriving DecidableEq, Repr

/-- Whether a digest string is in the PHC format produced by `Bun.password.hash`. -/
def Digest.isBun : Digest → Bool
  | .bun _ _ => true
  | .sha256demo _ => false

/-- The `users` table row / `userSchema` from `schema.ts`. -/
structure User where
  id : Nat
  username : String
  email : String
  password_hash : Digest
  role : UserRole
  is_active : Bool
  created_at : Nat
  updated_at : Nat
deriving DecidableEq, Repr

/-- `safeUserSchema` from `schema.ts`: the user record without `password_hash`.
The absence of the `password_hash` field is structural: the type has no such
field, so no value of it can carry a digest. -/
structure SafeUser where
  id : Nat
  username : String
  email : String
  role : UserRole
  is_active : Bool
  created_at : Nat
  updated_at : Nat
deriving DecidableEq, Repr

/-- The field-by-field copy `{ id: user.id, username: user.username, ... }`
performed by every handler before returning a record. -/
def toSafeUser (u : User) : SafeUser :=
  { id := u.id, username := u.username, email := u.email, role := u.role,
    is_active := u.is_active, created_at := u.created_at, updated_at := u.updated_at }

/-- The `users` table: rows in insertion order, plus the serial-id counter. -/
structure Store where
  users : List User
  nextId : Nat
deriving DecidableEq, Repr

def emptyStore : Store := { users := [], nextId := 0 }

deriving instance DecidableEq for Except

/-- Failures that handlers propagate as thrown exceptions: a unique-constraint
violation raised by the store, or `Bun.password.verify` rejecting a digest
that is not in a recognised password-hash format. -/
inductive CoreError
  | conflict
  | invalidHash
deriving DecidableEq, Repr

/-! ### Credential hashing -/

/-- `Bun.password.hash(plain)` with the random salt drawn for this call. -/
def bunHash (plain : String) (salt : Nat) : Digest := .bun salt plain

/-- One call of `Bun.password.hash` threaded through the salt source: each call
consumes a fresh salt. -/
def bunHashCall (plain : String) (gen : Nat) : Digest × Nat :=
  (.bun gen plain, gen + 1)

/-- `Bun.password.verify(password, digest)`.  For a digest produced by
`Bun.password.hash` it reports whether the plaintexts agree; for any other
string (such as the seeder's hex sha256 digest) it throws. -/
def bunVerify (password : String) (digest : Digest) : Except CoreError Bool :=
  match digest with
  | .bun _ plain => .ok (password == plain)
  | .sha256demo _ => .error .invalidHash

/-- `hashPassword` from `seed_demo_users.ts`:
`sha256(password + 'salt_demo_2024')` as a hex string.  The salt is a fixed
string constant, so the function is deterministic. -/
def hashPassword (password : String) : Digest := .sha256demo password

/-- One call of the seeder's `hashPassword` threaded through the same salt
source as `bunHashCall`: the function draws no randomness, so the source is
returned unchanged. -/
def hashPasswordCall (password : String) (gen : Nat) : Digest × Nat :=
  (.sha256demo password, gen)

/-! ### Store primitives -/

/-- Modelled from the spec: the drizzle schema file (`src/db/schema.ts`) is not
part of the sources, so the table-level behaviour of
`db.insert(usersTable).values(...).returning()` is taken from the spec's data
model: `username` and `email` are globally unique (violations fail the write
with a conflict error), `id` is system-assigned, and omitted columns take the
declared defaults (`is_active` true, `created_at`/`updated_at` the current
time).  Handlers that insert pass every value explicitly except the defaults. -/
def insertUser (s : Store) (username email : String) (ph : Digest)
    (role : UserRole) (is_active : Bool) (now : Nat) : Except CoreError (User × Store) :=
  if s.users.any (fun u => u.username == username) ||
     s.users.any (fun u => u.email == email) then
    .error .conflict
  else
    let u : User :=
      { id := s.nextId, username := username, email := email, password_hash := ph,
        role := role, is_active := is_active, created_at := now, updated_at := now }
    .ok (u, { users := s.users ++ [u], nextId := s.nextId + 1 })

/-! ### Handlers -/

/-- `createUserInputSchema` from `schema.ts`. -/
structure CreateUserInput where
  username : String
  email : String
  password : String
  role : UserRole
deriving DecidableEq, Repr

/-- `createUser` from `create_user.ts`: hash the password with
`Bun.password.hash`, insert with `is_active: true`, return the new record
without its `password_hash`. -/
def createUser (s : Store) (inp : CreateUserInput) (now salt : Nat) :
    Except CoreError (SafeUser × Store) :=
  match insertUser s inp.username inp.email (bunHash inp.password salt) inp.role true now with
  | .error e => .error e
  | .ok (u, s') => .ok (toSafeUser u, s')

/-- `getUserById` from `get_user_by_id.ts`: select by id, `null` when absent,
otherwise the first row without its `password_hash`. -/
def getUserById (s : Store) (i : Nat) : Option SafeUser :=
  match s.users.filter (fun u => u.id == i) with
  | [] => none
  | u :: _ => some (toSafeUser u)

/-- `getUsersByRole` from `get_users_by_role.ts`: select the safe columns of
every row with the given role. -/
def getUsersByRole (s : Store) (r : UserRole) : List SafeUser :=
  (s.users.filter (fun u => u.role == r)).map toSafeUser

/-- `loginInputSchema` from `schema.ts`. -/
structure LoginInput where
  email : String
  password : String
deriving DecidableEq, Repr

/-- `loginResponseSchema` from `schema.ts`. -/
structure LoginResponse where
  success : Bool
  user : Option SafeUser
  message : String
deriving DecidableEq, Repr

/-- The body of the `try` block of `loginUser` in `login_user.ts`: select by
email, reject an unknown email, reject a deactivated account, verify the
password with `Bun.password.verify` (whose throw propagates as `.error`),
and answer with the safe projection on success. -/
def loginUserBody (s : Store) (inp : LoginInput) : Except CoreError LoginResponse :=
  match s.users.filter (fun u => u.email == inp.email) with
  | [] => .ok { success := false, user := none, message := "Invalid email or password" }
  | user :: _ =>
    if !user.is_active then
      .ok { success := false, user := none, message := "Account is deactivated" }
    else
      match bunVerify inp.password user.password_hash with
      | .error e => .error e
      | .ok false =>
        .ok { success := false, user := none, message := "Invalid email or password" }
      | .ok true =>
        .ok { success := true, user := some (toSafeUser user), message := "Login successful" }

/-- `loginUser` from `login_user.ts`: the body wrapped in the `catch` that
converts any thrown error into the generic failure response. -/
def loginUser (s : Store) (inp : LoginInput) : LoginResponse :=
  match loginUserBody s inp with
  | .ok r => r
  | .error _ => { success := false, user := none, message := "Login failed due to server error" }

/-! ### SQL pattern matching for `getUsers`

`getUsers` builds the condition `ilike(column, '%' + search + '%')`.
PostgreSQL `ILIKE` folds the case of both operands and then matches the whole
string against the pattern, where `%` matches any sequence of characters, `_`
matches any single character, and a backslash escapes the following character.
Case folding is embedded as `Char.toLower` on each character (the ASCII
folding; the columns and search strings of this application are ASCII). -/

/-- The non-empty suffixes of a character list followed by `[]`; i.e. every
suffix, longest first. -/
def suffixes : List Char → List (List Char)
  | [] => [[]]
  | c :: s => (c :: s) :: suffixes s

/-- Whether `p` is a prefix of `t` (plain character comparison). -/
def isPrefixList : List Char → List Char → Bool
  | [], _ => true
  | _ :: _, [] => false
  | a :: p, b :: t => a == b && isPrefixList p t

/-- Whether `needle` occurs contiguously inside `hay`. -/
def containsSub (needle hay : List Char) : Bool :=
  (suffixes hay).any (fun t => isPrefixList needle t)

/-- PostgreSQL `LIKE` matching of a whole string against a pattern:
`%` matches any sequence, `_` any single character, `\` escapes the next
pattern character (a trailing `\`, an error in PostgreSQL, matches nothing). -/
def likeMatch : List Char → List Char → Bool
  | [], s => s.isEmpty
  | a :: p, s =>
    if a = '%' then (suffixes s).any (fun t => likeMatch p t)
    else if a = '\\' then
      match p, s with
      | b :: p', c :: s' => b == c && likeMatch p' s'
      | _, _ => false
    else
      match s with
      | [] => false
      | c :: s' => (a == '_' || a == c) && likeMatch p s'

/-- A string as the list of its case-folded characters. -/
def lowerStr (s : String) : List Char := s.data.map Char.toLower

/-- The pattern `` `%${filter.search}%` `` built by `getUsers`. -/
def searchPattern (search : String) : List Char := '%' :: (search.data ++ ['%'])

/-- `ilike(target, '%' + search + '%')`: case-fold both sides, then `LIKE`. -/
def ilikeSearch (search target : String) : Bool :=
  likeMatch ((searchPattern search).map Char.toLower) (lowerStr target)

/-- `userFilterSchema` from `schema.ts`. -/
structure UserFilter where
  role : Option UserRole
  is_active : Option Bool
  search : Option String
deriving DecidableEq, Repr

/-- The conjunction of conditions `getUsers` pushes for one filter: equality
on `role` when present (`if (filter.role)`), equality on `is_active` when
present (`!== undefined`), and `ilike` on username or email when `search` is
present and non-empty (`if (filter.search)` — the empty string is falsy in
JavaScript, so an empty search adds no condition). -/
def matchesFilter (fl : UserFilter) (u : User) : Bool :=
  (match fl.role with
   | none => true
   | some r => u.role == r) &&
  (match fl.is_active with
   | none => true
   | some b => u.is_active == b) &&
  (match fl.search with
   | none => true
   | some str =>
     if str = "" then true
     else ilikeSearch str u.username || ilikeSearch str u.email)

/-- `getUsers` from `get_users.ts`: select the safe columns of every row
satisfying the conjunction of the supplied filter conditions; with no filter,
every row. -/
def getUsers (s : Store) (f : Option UserFilter) : List SafeUser :=
  match f with
  | none => s.users.map toSafeUser
  | some fl => (s.users.filter (matchesFilter fl)).map toSafeUser

/-! ### updateUser -/

/-- `updateUserInputSchema` from `schema.ts`. -/
structure UpdateUserInput where
  id : Nat
  username : Option String
  email : Option String
  password : Option String
  role : Option UserRole
  is_active : Option Bool
deriving DecidableEq, Repr

/-- The effect of `db.update(usersTable).set(updateValues)` on one matching
row: `updated_at` is always staged; each optional input field present is
staged; a present `password` is staged as its `Bun.password.hash` digest. -/
def stageUpdate (inp : UpdateUserInput) (now salt : Nat) (v : User) : User :=
  { v with
    updated_at := now
    username := inp.username.getD v.username
    email := inp.email.getD v.email
    role := inp.role.getD v.role
    is_active := inp.is_active.getD v.is_active
    password_hash :=
      match inp.password with
      | some p => bunHash p salt
      | none => v.password_hash }

/-- Modelled from the spec (the schema file with the unique constraints is not
among the sources): the store raises a conflict when a supplied `username` or
`email` collides with a different record. -/
def updateConflict (s : Store) (inp : UpdateUserInput) : Bool :=
  s.users.any (fun v => v.id != inp.id &&
    ((match inp.username with
      | some nm => v.username == nm
      | none => false) ||
     (match inp.email with
      | some em => v.email == em
      | none => false)))

/-- `updateUser` from `update_user.ts`: select by id and return `null` at once
when absent; otherwise stage the supplied fields plus `updated_at`, write them
to every row with that id (the conflict from a colliding unique column
propagates), and return the updated first row without its `password_hash`. -/
def updateUser (s : Store) (inp : UpdateUserInput) (now salt : Nat) :
    Except CoreError (Option SafeUser × Store) :=
  match s.users.filter (fun v => v.id == inp.id) with
  | [] => .ok (none, s)
  | u :: _ =>
    if updateConflict s inp then
      .error .conflict
    else
      .ok (some (toSafeUser (stageUpdate inp now salt u)),
        { users := s.users.map (fun v => if v.id == inp.id then stageUpdate inp now salt v else v),
          nextId := s.nextId })

/-! ### Demo seeding -/

/-- `seedUserSchema` from `schema.ts`. -/
structure SeedUser where
  username : String
  email : String
  password : String
  role : UserRole
deriving DecidableEq, Repr

/-- The fixed `DEMO_USERS` table from `seed_demo_users.ts`. -/
def DEMO_USERS : List SeedUser :=
  [ { username := "admin_demo", email := "admin@demo.com",
      password := "admin123", role := .admin },
    { username := "reseller_demo", email := "reseller@demo.com",
      password := "reseller123", role := .reseller },
    { username := "user_demo", email := "user@demo.com",
      password := "user123", role := .user } ]

/-- One iteration of the seeding loop: select by the demo email; when a row
exists answer with its safe projection and leave the store alone; otherwise
hash the demo password with `hashPassword` and insert (is_active and the
timestamps take the column defaults). -/
def ensureDemoUser (s : Store) (d : SeedUser) (now : Nat) :
    Except CoreError (SafeUser × Store) :=
  match s.users.filter (fun u => u.email == d.email) with
  | u :: _ => .ok (toSafeUser u, s)
  | [] =>
    match insertUser s d.username d.email (hashPassword d.password) d.role true now with
    | .error e => .error e
    | .ok (u, s') => .ok (toSafeUser u, s')

/-- The seeding loop over a list of demo specifications, in list order; an
error aborts the call (`seedDemoUsers` rethrows). -/
def seedLoop : Store → List SeedUser → Nat → Except CoreError (List SafeUser × Store)
  | s, [], _ => .ok ([], s)
  | s, d :: ds, now =>
    match ensureDemoUser s d now with
    | .error e => .error e
    | .ok (su, s₁) =>
      match seedLoop s₁ ds now with
      | .error e => .error e
      | .ok (sus, s₂) => .ok (su :: sus, s₂)

/-- `seedDemoUsers` from `seed_demo_users.ts`. -/
def seedDemoUsers (s : Store) (now : Nat) : Except CoreError (List SafeUser × Store) :=
  seedLoop s DEMO_USERS now

/-- The record `seedDemoUsers` inserts for a demo specification whose email is
not yet stored. -/
def demoRecord (s : Store) (d : SeedUser) (now : Nat) : User :=
  { id := s.nextId, username := d.username, email := d.email,
    password_hash := hashPassword d.password, role := d.role,
    is_active := true, created_at := now, updated_at := now }

/-! ### Definitions written from the spec's words, for refinement comparison -/

/-- From the spec's words: "`search` matches substring, case-insensitively,
against `username` OR `email`" — the search string occurs contiguously in the
case-folded target. -/
def ciContainsSpec (needle hay : String) : Bool :=
  containsSub (lowerStr needle) (lowerStr hay)

/-- From the spec's words: the predicate a stored user must satisfy to be
returned by `getUsers` — equality on `role` and `is_active` when supplied,
case-insensitive substring search against username or email when supplied,
the conjunction of the supplied fields, and everything when no filter is
supplied. -/
def specPass (f : Option UserFilter) (u : User) : Bool :=
  match f with
  | none => true
  | some fl =>
    (match fl.role with
     | none => true
     | some r => u.role == r) &&
    (match fl.is_active with
     | none => true
     | some b => u.is_active == b) &&
    (match fl.search with
     | none => true
     | some str => ciContainsSpec str u.username || ciContainsSpec str u.email)

/-! ### Concrete fixtures -/

/-- The store produced by `seedDemoUsers` on an empty store at time 0. -/
def demoSeededStore : Store :=
  { users :=
      [ { id := 0, username := "admin_demo", email := "admin@demo.com",
          password_hash := .sha256demo "admin123", role := .admin,
          is_active := true, created_at := 0, updated_at := 0 },
        { id := 1, username := "reseller_demo", email := "reseller@demo.com",
          password_hash := .sha256demo "reseller123", role := .reseller,
          is_active := true, created_at := 0, updated_at := 0 },
        { id := 2, username := "user_demo", email := "user@demo.com",
          password_hash := .sha256demo "user123", role := .user,
          is_active := true, created_at := 0, updated_at := 0 } ],
    nextId := 3 }

/-- The safe projections `seedDemoUsers` answers with on an empty store. -/
def demoSeedResult : List SafeUser :=
  [ { id := 0, username := "admin_demo", email := "admin@demo.com",
      role := .admin, is_active := true, created_at := 0, updated_at := 0 },
    { id := 1, username := "reseller_demo", email := "reseller@demo.com",
      role := .reseller, is_active := true, created_at := 0, updated_at := 0 },
    { id := 2, username := "user_demo", email := "user@demo.com",
      role := .user, is_active := true, created_at := 0, updated_at := 0 } ]

/-- A store with one active user whose digest came from `Bun.password.hash`. -/
def aliceUser : User :=
  { id := 1, username := "alice", email := "alice@example.com",
    password_hash := .bun 7 "wonderland", role := .user,
    is_active := true, created_at := 5, updated_at := 5 }

def aliceStore : Store := { users := [aliceUser], nextId := 2 }

/-- `aliceUser` after an update that supplies only the username, at time 10. -/
def aliceUpdated : User := { aliceUser with username := "alicia", updated_at := 10 }

def aliceStore2 : Store := { users := [aliceUpdated], nextId := 2 }

/-! ## Helper lemmas -/

/-- Every run of `loginUser` ends in one of its four literal responses or in
the caught-error response, and a success response carries the safe projection
of a stored user with the looked-up email. -/
theorem loginUser_cases (s : Store) (inp : LoginInput) :
    loginUser s inp = { success := false, user := none, message := "Invalid email or password" }
  ∨ loginUser s inp = { success := false, user := none, message := "Account is deactivated" }
  ∨ loginUser s inp = { success := false, user := none, message := "Login failed due to server error" }
  ∨ ∃ u, u ∈ s.users ∧ u.email = inp.email ∧
      loginUser s inp = { success := true, user := some (toSafeUser u), message := "Login successful" } := by
  unfold loginUser loginUserBody
  cases hf : s.users.filter (fun u => u.email == inp.email) with
  | nil => exact Or.inl rfl
  | cons u rest =>
    have hu : u ∈ s.users ∧ (u.email == inp.email) = true := by
      have : u ∈ s.users.filter (fun u => u.email == inp.email) := by
        rw [hf]; exact List.mem_cons_self u rest
      exact List.mem_filter.mp this
    by_cases ha : u.is_active
    · cases hv : bunVerify inp.password u.password_hash with
      | error e => simp [ha, hv]
      | ok b =>
        cases b
        · simp [ha, hv]
        · refine Or.inr (Or.inr (Or.inr ⟨u, hu.1, by simpa using hu.2, ?_⟩))
          simp [ha, hv]
    · simp [ha]

/-- Unfolding equation for `updateUser` when the id lookup finds a row. -/
theorem updateUser_eq_cons (s : Store) (inp : UpdateUserInput) (now salt : Nat)
    (u : User) (rest : List User)
    (hfind : s.users.filter (fun v => v.id == inp.id) = u :: rest) :
    updateUser s inp now salt =
      if updateConflict s inp then .error .conflict
      else .ok (some (toSafeUser (stageUpdate inp now salt u)),
        { users := s.users.map (fun v => if v.id == inp.id then stageUpdate inp now salt v else v),
          nextId := s.nextId }) := by
  unfold updateUser
  rw [hfind]

/-- The two ways one seeding step can succeed: the email was present and the
store is untouched, or the demo record was appended. -/
theorem ensureDemoUser_ok_cases (s : Store) (d : SeedUser) (now : Nat) (su : SafeUser) (s₂ : Store)
    (h : ensureDemoUser s d now = .ok (su, s₂)) :
    (∃ u rest, s.users.filter (fun u => u.email == d.email) = u :: rest
       ∧ su = toSafeUser u ∧ s₂ = s)
  ∨ (s.users.filter (fun u => u.email == d.email) = []
       ∧ su = toSafeUser (demoRecord s d now)
       ∧ s₂ = { users := s.users ++ [demoRecord s d now], nextId := s.nextId + 1 }) := by
  unfold ensureDemoUser at h
  cases hf : s.users.filter (fun u => u.email == d.email) with
  | cons u rest =>
    rw [hf] at h
    simp only [Except.ok.injEq, Prod.mk.injEq] at h
    exact Or.inl ⟨u, rest, rfl, h.1.symm, h.2.symm⟩
  | nil =>
    rw [hf] at h
    unfold insertUser at h
    by_cases hc : (s.users.any fun u => u.username == d.username) ||
        (s.users.any fun u => u.email == d.email)
    · rw [if_pos hc] at h
      cases h
    · rw [if_neg hc] at h
      simp only [Except.ok.injEq, Prod.mk.injEq] at h
      exact Or.inr ⟨rfl, h.1.symm, h.2.symm⟩

/-- A successful seeding step only ever appends records. -/
theorem ensureDemoUser_grow (s : Store) (d : SeedUser) (now : Nat) (su : SafeUser) (s₂ : Store)
    (h : ensureDemoUser s d now = .ok (su, s₂)) : ∃ ext, s₂.users = s.users ++ ext := by
  rcases ensureDemoUser_ok_cases s d now su s₂ h with ⟨_, _, _, _, hs⟩ | ⟨_, _, hs⟩
  · exact ⟨[], by rw [hs, List.append_nil]⟩
  · exact ⟨[demoRecord s d now], by rw [hs]⟩

/-- A successful seeding step answers with the projection of a record that is
in the resulting store. -/
theorem ensureDemoUser_safe (s : Store) (d : SeedUser) (now : Nat) (su : SafeUser) (s₂ : Store)
    (h : ensureDemoUser s d now = .ok (su, s₂)) :
    ∃ u, u ∈ s₂.users ∧ su = toSafeUser u := by
  rcases ensureDemoUser_ok_cases s d now su s₂ h with ⟨u, rest, hf, hsu, hs⟩ | ⟨_, hsu, hs⟩
  · refine ⟨u, ?_, hsu⟩
    rw [hs]
    exact List.mem_of_mem_filter (hf ▸ List.mem_cons_self u rest)
  · refine ⟨demoRecord s d now, ?_, hsu⟩
    rw [hs]
    exact List.mem_append_right _ (List.mem_singleton.mpr rfl)

/-- A successful seeding loop only ever appends records. -/
theorem seedLoop_grow (ds : List SeedUser) (s : Store) (now : Nat)
    (r : List SafeUser) (s' : Store)
    (h : seedLoop s ds now = .ok (r, s')) : ∃ ext, s'.users = s.users ++ ext := by
  induction ds generalizing s r with
  | nil =>
    unfold seedLoop at h
    simp only [Except.ok.injEq, Prod.mk.injEq] at h
    exact ⟨[], by rw [← h.2, List.append_nil]⟩
  | cons d ds ih =>
    unfold seedLoop at h
    cases he : ensureDemoUser s d now with
    | error e => simp only [he] at h; cases h
    | ok p =>
      obtain ⟨su, s₁⟩ := p
      simp only [he] at h
      cases hl : seedLoop s₁ ds now with
      | error e => simp only [hl] at h; cases h
      | ok q =>
        obtain ⟨sus, s₂⟩ := q
        simp only [hl, Except.ok.injEq, Prod.mk.injEq] at h
        obtain ⟨hr, hs⟩ := h
        subst hs
        obtain ⟨ext₁, h₁⟩ := ensureDemoUser_grow s d now su s₁ he
        obtain ⟨ext₂, h₂⟩ := ih s₁ sus hl
        exact ⟨ext₁ ++ ext₂, by rw [h₂, h₁, List.append_assoc]⟩

/-- Every projection a successful seeding loop answers with is the projection
of a record in the resulting store. -/
theorem seedLoop_safe (ds : List SeedUser) (s : Store) (now : Nat)
    (r : List SafeUser) (s' : Store)
    (h : seedLoop s ds now = .ok (r, s')) :
    ∀ su ∈ r, ∃ u, u ∈ s'.users ∧ su = toSafeUser u := by
  induction ds generalizing s r with
  | nil =>
    unfold seedLoop at h
    simp only [Except.ok.injEq, Prod.mk.injEq] at h
    rw [← h.1]
    intro su hsu
    cases hsu
  | cons d ds ih =>
    unfold seedLoop at h
    cases he : ensureDemoUser s d now with
    | error e => simp only [he] at h; cases h
    | ok p =>
      obtain ⟨su₀, s₁⟩ := p
      simp only [he] at h
      cases hl : seedLoop s₁ ds now with
      | error e => simp only [hl] at h; cases h
      | ok q =>
        obtain ⟨sus, s₂⟩ := q
        simp only [hl, Except.ok.injEq, Prod.mk.injEq] at h
        obtain ⟨hr, hs⟩ := h
        subst hs
        subst hr
        intro su hsu
        rcases List.mem_cons.mp hsu with hsu | hsu
        · obtain ⟨u, hu, hproj⟩ := ensureDemoUser_safe s d now su₀ s₁ he
          obtain ⟨ext, hext⟩ := seedLoop_grow ds s₁ now sus _ hl
          refine ⟨u, ?_, by rw [hsu]; exact hproj⟩
          rw [hext]
          exact List.mem_append_left _ hu
        · exact ih s₁ sus hl su hsu

/-- A seeding step is determined by the email lookup: a found row is answered
as it stands. -/
theorem ensureDemoUser_of_filter (s : Store) (d : SeedUser) (now : Nat)
    (u : User) (rest : List User)
    (hf : s.users.filter (fun u => u.email == d.email) = u :: rest) :
    ensureDemoUser s d now = .ok (toSafeUser u, s) := by
  unfold ensureDemoUser
  rw [hf]

/-- After a successful seeding step the demo email is present, and the step's
answer is the projection of the first row carrying it. -/
theorem ensureDemoUser_post_filter (s : Store) (d : SeedUser) (now : Nat)
    (su : SafeUser) (s₂ : Store)
    (h : ensureDemoUser s d now = .ok (su, s₂)) :
    ∃ u rest, s₂.users.filter (fun u => u.email == d.email) = u :: rest ∧ su = toSafeUser u := by
  rcases ensureDemoUser_ok_cases s d now su s₂ h with ⟨u, rest, hf, hsu, hs⟩ | ⟨hf, hsu, hs⟩
  · exact ⟨u, rest, by rw [hs, hf], hsu⟩
  · refine ⟨demoRecord s d now, [], ?_, hsu⟩
    rw [hs]
    simp only [List.filter_append, hf, List.nil_append]
    simp [demoRecord]

/-- A successful seeding step leaves the lookup of any other email unchanged. -/
theorem ensureDemoUser_filter_other (s : Store) (d : SeedUser) (now : Nat)
    (su : SafeUser) (s₂ : Store) (e : String)
    (h : ensureDemoUser s d now = .ok (su, s₂)) (hne : d.email ≠ e) :
    s₂.users.filter (fun u => u.email == e) = s.users.filter (fun u => u.email == e) := by
  rcases ensureDemoUser_ok_cases s d now su s₂ h with ⟨u, rest, hf, hsu, hs⟩ | ⟨hf, hsu, hs⟩
  · rw [hs]
  · rw [hs]
    simp only [List.filter_append]
    have : ((demoRecord s d now).email == e) = false := by
      simp [demoRecord, hne]
    simp [List.filter, this]

/-- A successful seeding step answers with a projection carrying the demo
email. -/
theorem ensureDemoUser_email (s : Store) (d : SeedUser) (now : Nat)
    (su : SafeUser) (s₂ : Store)
    (h : ensureDemoUser s d now = .ok (su, s₂)) : su.email = d.email := by
  rcases ensureDemoUser_ok_cases s d now su s₂ h with ⟨u, rest, hf, hsu, hs⟩ | ⟨hf, hsu, hs⟩
  · have hu : u ∈ s.users ∧ (u.email == d.email) = true :=
      List.mem_filter.mp (hf ▸ List.mem_cons_self u rest)
    rw [hsu]
    exact eq_of_beq hu.2
  · rw [hsu]
    rfl

/-- A successful seeding loop leaves the lookup of any email outside the list
unchanged. -/
theorem seedLoop_filter_other (ds : List SeedUser) (s : Store) (now : Nat)
    (r : List SafeUser) (s' : Store) (e : String)
    (h : seedLoop s ds now = .ok (r, s')) (hne : ∀ d ∈ ds, d.email ≠ e) :
    s'.users.filter (fun u => u.email == e) = s.users.filter (fun u => u.email == e) := by
  induction ds generalizing s r with
  | nil =>
    unfold seedLoop at h
    simp only [Except.ok.injEq, Prod.mk.injEq] at h
    rw [← h.2]
  | cons d ds ih =>
    unfold seedLoop at h
    cases he : ensureDemoUser s d now with
    | error err => simp only [he] at h; cases h
    | ok p =>
      obtain ⟨su, s₁⟩ := p
      simp only [he] at h
      cases hl : seedLoop s₁ ds now with
      | error err => simp only [hl] at h; cases h
      | ok q =>
        obtain ⟨sus, s₂⟩ := q
        simp only [hl, Except.ok.injEq, Prod.mk.injEq] at h
        obtain ⟨hr, hs⟩ := h
        subst hs
        have h₁ := ensureDemoUser_filter_other s d now su s₁ e he
          (hne d (List.mem_cons_self d ds))
        have h₂ := ih s₁ sus hl (fun d' hd' => hne d' (List.mem_cons_of_mem d hd'))
        rw [h₂, h₁]

/-- Running a successful seeding loop a second time, over specifications with
pairwise-distinct emails, changes nothing: the store stays as it is and the
same projections (in particular the same ids) are answered. -/
theorem seedLoop_ok_again (ds : List SeedUser) (s : Store) (now now' : Nat)
    (r : List SafeUser) (s' : Store)
    (hnodup : (ds.map (fun d => d.email)).Nodup)
    (h : seedLoop s ds now = .ok (r, s')) :
    seedLoop s' ds now' = .ok (r, s') := by
  induction ds generalizing s r with
  | nil =>
    unfold seedLoop at h ⊢
    simp only [Except.ok.injEq, Prod.mk.injEq] at h
    rw [← h.1, ← h.2]
  | cons d ds ih =>
    unfold seedLoop at h
    cases he : ensureDemoUser s d now with
    | error err => simp only [he] at h; cases h
    | ok p =>
      obtain ⟨su, s₁⟩ := p
      simp only [he] at h
      cases hl : seedLoop s₁ ds now with
      | error err => simp only [hl] at h; cases h
      | ok q =>
        obtain ⟨sus, s₂⟩ := q
        simp only [hl, Except.ok.injEq, Prod.mk.injEq] at h
        obtain ⟨hr, hs⟩ := h
        subst hs
        subst hr
        simp only [List.map_cons, List.nodup_cons, List.mem_map] at hnodup
        obtain ⟨hd, hnodup'⟩ := hnodup
        obtain ⟨u, rest, hpf, hsu⟩ := ensureDemoUser_post_filter s d now su s₁ he
        have hpres : s₂.users.filter (fun u => u.email == d.email) =
            s₁.users.filter (fun u => u.email == d.email) := by
          refine seedLoop_filter_other ds s₁ now sus s₂ d.email hl ?_
          intro d' hd' heq
          exact hd ⟨d', hd', heq⟩
        have hstep : ensureDemoUser s₂ d now' = .ok (su, s₂) := by
          rw [hsu]
          exact ensureDemoUser_of_filter s₂ d now' u rest (by rw [hpres, hpf])
        have hrest : seedLoop s₂ ds now' = .ok (sus, s₂) := ih s₁ sus hnodup' hl
        unfold seedLoop
        simp only [hstep, hrest]

/-- A successful seeding loop answers one projection per specification, in
list order, carrying the specification's email. -/
theorem seedLoop_emails (ds : List SeedUser) (s : Store) (now : Nat)
    (r : List SafeUser) (s' : Store)
    (h : seedLoop s ds now = .ok (r, s')) :
    r.map (fun su => su.email) = ds.map (fun d => d.email) := by
  induction ds generalizing s r with
  | nil =>
    unfold seedLoop at h
    simp only [Except.ok.injEq, Prod.mk.injEq] at h
    rw [← h.1]
    rfl
  | cons d ds ih =>
    unfold seedLoop at h
    cases he : ensureDemoUser s d now with
    | error err => simp only [he] at h; cases h
    | ok p =>
      obtain ⟨su, s₁⟩ := p
      simp only [he] at h
      cases hl : seedLoop s₁ ds now with
      | error err => simp only [hl] at h; cases h
      | ok q =>
        obtain ⟨sus, s₂⟩ := q
        simp only [hl, Except.ok.injEq, Prod.mk.injEq] at h
        obtain ⟨hr, hs⟩ := h
        subst hs
        subst hr
        simp only [List.map_cons]
        rw [ensureDemoUser_email s d now su s₁ he, ih s₁ sus hl]

/-- When a specification's email is already stored, a successful seeding loop
over pairwise-distinct emails includes the projection of the first stored row
with that email in its answer. -/
theorem seedLoop_existing (ds : List SeedUser) (s : Store) (now : Nat)
    (r : List SafeUser) (s' : Store) (d : SeedUser) (u : User) (rest : List User)
    (hnodup : (ds.map (fun d => d.email)).Nodup)
    (h : seedLoop s ds now = .ok (r, s')) (hd : d ∈ ds)
    (hf : s.users.filter (fun v => v.email == d.email) = u :: rest) :
    toSafeUser u ∈ r := by
  induction ds generalizing s r with
  | nil => cases hd
  | cons d₀ ds ih =>
    unfold seedLoop at h
    cases he : ensureDemoUser s d₀ now with
    | error err => simp only [he] at h; cases h
    | ok p =>
      obtain ⟨su, s₁⟩ := p
      simp only [he] at h
      cases hl : seedLoop s₁ ds now with
      | error err => simp only [hl] at h; cases h
      | ok q =>
        obtain ⟨sus, s₂⟩ := q
        simp only [hl, Except.ok.injEq, Prod.mk.injEq] at h
        obtain ⟨hr, hs⟩ := h
        subst hs
        subst hr
        simp only [List.map_cons, List.nodup_cons, List.mem_map] at hnodup
        obtain ⟨hd₀, hnodup'⟩ := hnodup
        rcases List.mem_cons.mp hd with hdd | hdd
        · subst hdd
          have := ensureDemoUser_of_filter s d now u rest hf
          rw [this] at he
          injection he with he
          injection he with he₁ he₂
          rw [← he₁]
          exact List.mem_cons_self _ _
        · have hne : d₀.email ≠ d.email := by
            intro heq
            exact hd₀ ⟨d, hdd, heq.symm⟩
          have hpres := ensureDemoUser_filter_other s d₀ now su s₁ d.email he hne
          refine List.mem_cons_of_mem su (ih s₁ sus hnodup' hl hdd ?_)
          rw [hpres, hf]

/-! ### Pattern-matching lemmas for the search filter -/

theorem anyCongr {α : Type} (l : List α) (f g : α → Bool)
    (h : ∀ x ∈ l, f x = g x) : l.any f = l.any g := by
  induction l with
  | nil => rfl
  | cons a l ih =>
    simp only [List.any_cons, h a (List.mem_cons_self a l)]
    rw [ih (fun x hx => h x (List.mem_cons_of_mem a hx))]

/-- The empty needle occurs in every haystack. -/
theorem containsSub_nil (h : List Char) : containsSub [] h = true := by
  cases h <;> simp [containsSub, suffixes, isPrefixList]

/-- Some suffix of every list is empty (the last one). -/
theorem suffixes_any_isEmpty (s : List Char) :
    (suffixes s).any (fun t => t.isEmpty) = true := by
  induction s with
  | nil => rfl
  | cons c s ih => simp [suffixes, List.any_cons, ih]

/-- Definitional unfolding of `likeMatch` at a cons pattern. -/
theorem likeMatch_cons (a : Char) (p s : List Char) :
    likeMatch (a :: p) s =
      if a = '%' then (suffixes s).any (fun t => likeMatch p t)
      else if a = '\\' then
        match p, s with
        | b :: p', c :: s' => b == c && likeMatch p' s'
        | _, _ => false
      else
        match s with
        | [] => false
        | c :: s' => (a == '_' || a == c) && likeMatch p s' := by
  rw [likeMatch.eq_def]

/-- A pattern of plain characters followed by `%` matches exactly the strings
the plain characters are a prefix of. -/
theorem likeMatch_plain (p : List Char)
    (hp : ∀ c ∈ p, c ≠ '%' ∧ c ≠ '_' ∧ c ≠ '\\') (t : List Char) :
    likeMatch (p ++ ['%']) t = isPrefixList p t := by
  induction p generalizing t with
  | nil =>
    rw [List.nil_append, likeMatch_cons, if_pos rfl]
    show (suffixes t).any (fun t => t.isEmpty) = true
    exact suffixes_any_isEmpty t
  | cons a p ih =>
    obtain ⟨h1, h2, h3⟩ := hp a (List.mem_cons_self a p)
    have hp' : ∀ c ∈ p, c ≠ '%' ∧ c ≠ '_' ∧ c ≠ '\\' :=
      fun c hc => hp c (List.mem_cons_of_mem a hc)
    have h2b : (a == '_') = false := by
      simp [h2]
    cases t with
    | nil =>
      rw [List.cons_append, likeMatch_cons, if_neg h1, if_neg h3]
      rfl
    | cons c t =>
      rw [List.cons_append, likeMatch_cons, if_neg h1, if_neg h3]
      show ((a == '_' || a == c) && likeMatch (p ++ ['%']) t) = isPrefixList (a :: p) (c :: t)
      rw [ih hp' t, h2b, Bool.false_or]
      rfl

/-- The pattern `%p%` with plain `p` matches exactly the strings containing
`p`. -/
theorem likeMatch_search (p : List Char)
    (hp : ∀ c ∈ p, c ≠ '%' ∧ c ≠ '_' ∧ c ≠ '\\') (s : List Char) :
    likeMatch ('%' :: (p ++ ['%'])) s = containsSub p s := by
  rw [likeMatch_cons, if_pos rfl]
  exact anyCongr (suffixes s) _ _ (fun t _ => likeMatch_plain p hp t)

/-- `Char.ofNat` answers the encoded scalar value below the surrogate range. -/
theorem toNat_ofNat_small (n : Nat) (h : n < 55296) : (Char.ofNat n).toNat = n := by
  have hv : n.isValidChar := Or.inl h
  rw [Char.ofNat, dif_pos hv]
  rfl

/-- Case folding either fixes a character or yields a lowercase ASCII letter. -/
theorem toLower_cases (c : Char) :
    Char.toLower c = c ∨ (97 ≤ (Char.toLower c).toNat ∧ (Char.toLower c).toNat ≤ 122) := by
  simp only [Char.toLower]
  by_cases hc : c.toNat ≥ 65 ∧ c.toNat ≤ 90
  · rw [if_pos hc]
    right
    rw [toNat_ofNat_small _ (by omega)]
    omega
  · rw [if_neg hc]
    left
    rfl

/-- Case folding cannot produce a character below `'a'` (such as `%`, `_` or
`\`) from a different character. -/
theorem toLower_ne_low (c t : Char) (ht : t.toNat < 97) (h : c ≠ t) :
    Char.toLower c ≠ t := by
  rcases toLower_cases c with hl | ⟨h1, _⟩
  · rw [hl]
    exact h
  · intro he
    rw [he] at h1
    omega

/-- A wildcard-free search string stays wildcard-free after case folding. -/
theorem lowerStr_no_special (str : String)
    (hs : ∀ c ∈ str.data, c ≠ '%' ∧ c ≠ '_' ∧ c ≠ '\\') :
    ∀ c ∈ lowerStr str, c ≠ '%' ∧ c ≠ '_' ∧ c ≠ '\\' := by
  intro c hc
  obtain ⟨c₀, hc₀, hfold⟩ := List.mem_map.mp hc
  obtain ⟨h1, h2, h3⟩ := hs c₀ hc₀
  subst hfold
  exact ⟨toLower_ne_low c₀ '%' (by decide) h1,
         toLower_ne_low c₀ '_' (by decide) h2,
         toLower_ne_low c₀ '\\' (by decide) h3⟩

/-- For a wildcard-free search string the `ilike '%search%'` condition built
by `getUsers` is exactly the spec's case-insensitive substring test. -/
theorem ilikeSearch_eq_contains (str target : String)
    (hs : ∀ c ∈ str.data, c ≠ '%' ∧ c ≠ '_' ∧ c ≠ '\\') :
    ilikeSearch str target = ciContainsSpec str target := by
  have hpct : Char.toLower '%' = '%' := by decide
  have hpat : (searchPattern str).map Char.toLower = '%' :: (lowerStr str ++ ['%']) := by
    simp [searchPattern, lowerStr, hpct]
  unfold ilikeSearch ciContainsSpec
  rw [hpat]
  exact likeMatch_search (lowerStr str) (lowerStr_no_special str hs) (lowerStr target)

/-- For a wildcard-free (or absent) search, the condition `getUsers` pushes
coincides pointwise with the predicate the spec describes. -/
theorem matchesFilter_eq_specPass (fl : UserFilter) (u : User)
    (hs : ∀ str, fl.search = some str → ∀ c ∈ str.data, c ≠ '%' ∧ c ≠ '_' ∧ c ≠ '\\') :
    matchesFilter fl u = specPass (some fl) u := by
  obtain ⟨frole, factive, fsearch⟩ := fl
  cases fsearch with
  | none => rfl
  | some str =>
    have hstr := hs str rfl
    have hcomp : (if str = "" then true
          else ilikeSearch str u.username || ilikeSearch str u.email) =
        (ciContainsSpec str u.username || ciContainsSpec str u.email) := by
      by_cases hempty : str = ""
      · subst hempty
        rw [if_pos rfl]
        have h1 : ciContainsSpec "" u.username = true := containsSub_nil _
        rw [h1, Bool.true_or]
      · rw [if_neg hempty, ilikeSearch_eq_contains str u.username hstr,
          ilikeSearch_eq_contains str u.email hstr]
    simp only [matchesFilter, specPass]
    rw [hcomp]

/-! ## Claim theorems -/

/-- Claim C2: no value returned across the core boundary carries a
`password_hash`, and every other field passes through unchanged: the return
types of `createUser`, `getUserById`, `getUsers`, `getUsersByRole`,
`updateUser`, `loginUser` and `seedDemoUsers` are built from `SafeUser`, a
type with no `password_hash` field, every returned `SafeUser` is the
`toSafeUser` projection of a record stored at return time, and `toSafeUser`
copies all seven remaining fields unchanged. -/
theorem safe_projection_no_leak :
    (∀ u : User, (toSafeUser u).id = u.id ∧ (toSafeUser u).username = u.username
       ∧ (toSafeUser u).email = u.email ∧ (toSafeUser u).role = u.role
       ∧ (toSafeUser u).is_active = u.is_active ∧ (toSafeUser u).created_at = u.created_at
       ∧ (toSafeUser u).updated_at = u.updated_at)
  ∧ (∀ s inp now salt su s', createUser s inp now salt = .ok (su, s') →
       ∃ u, u ∈ s'.users ∧ su = toSafeUser u)
  ∧ (∀ s i su, getUserById s i = some su → ∃ u, u ∈ s.users ∧ su = toSafeUser u)
  ∧ (∀ s f su, su ∈ getUsers s f → ∃ u, u ∈ s.users ∧ su = toSafeUser u)
  ∧ (∀ s rl su, su ∈ getUsersByRole s rl → ∃ u, u ∈ s.users ∧ su = toSafeUser u)
  ∧ (∀ s inp now salt res s' su, updateUser s inp now salt = .ok (res, s') → res = some su →
       ∃ u, u ∈ s'.users ∧ su = toSafeUser u)
  ∧ (∀ s inp su, (loginUser s inp).user = some su → ∃ u, u ∈ s.users ∧ su = toSafeUser u)
  ∧ (∀ s now r s' su, seedDemoUsers s now = .ok (r, s') → su ∈ r →
       ∃ u, u ∈ s'.users ∧ su = toSafeUser u) := by
  refine ⟨?_, ?_, ?_, ?_, ?_, ?_, ?_, ?_⟩
  · intro u
    exact ⟨rfl, rfl, rfl, rfl, rfl, rfl, rfl⟩
  · intro s inp now salt su s' h
    unfold createUser insertUser at h
    by_cases hc : (s.users.any fun u => u.username == inp.username) ||
        (s.users.any fun u => u.email == inp.email)
    · simp only [if_pos hc] at h
      cases h
    · simp only [if_neg hc] at h
      simp only [Except.ok.injEq, Prod.mk.injEq] at h
      obtain ⟨hsu, hs⟩ := h
      refine ⟨_, ?_, hsu.symm⟩
      rw [← hs]
      exact List.mem_append_right _ (List.mem_singleton.mpr rfl)
  · intro s i su h
    unfold getUserById at h
    cases hf : s.users.filter (fun u => u.id == i) with
    | nil => rw [hf] at h; cases h
    | cons u rest =>
      rw [hf] at h
      injection h with h
      exact ⟨u, List.mem_of_mem_filter (hf ▸ List.mem_cons_self u rest), h.symm⟩
  · intro s f su h
    cases f with
    | none =>
      unfold getUsers at h
      obtain ⟨u, hu, hproj⟩ := List.mem_map.mp h
      exact ⟨u, hu, hproj.symm⟩
    | some fl =>
      unfold getUsers at h
      obtain ⟨u, hu, hproj⟩ := List.mem_map.mp h
      exact ⟨u, List.mem_of_mem_filter hu, hproj.symm⟩
  · intro s rl su h
    unfold getUsersByRole at h
    obtain ⟨u, hu, hproj⟩ := List.mem_map.mp h
    exact ⟨u, List.mem_of_mem_filter hu, hproj.symm⟩
  · intro s inp now salt res s' su h hsu
    cases hf : s.users.filter (fun v => v.id == inp.id) with
    | nil =>
      unfold updateUser at h
      rw [hf] at h
      simp only [Except.ok.injEq, Prod.mk.injEq] at h
      rw [← h.1] at hsu
      cases hsu
    | cons u rest =>
      rw [updateUser_eq_cons s inp now salt u rest hf] at h
      by_cases hc : updateConflict s inp
      · rw [if_pos hc] at h
        cases h
      · rw [if_neg hc] at h
        simp only [Except.ok.injEq, Prod.mk.injEq] at h
        obtain ⟨hres, hs⟩ := h
        rw [← hres] at hsu
        injection hsu with hsu
        have hu : u ∈ s.users ∧ (u.id == inp.id) = true :=
          List.mem_filter.mp (hf ▸ List.mem_cons_self u rest)
        refine ⟨stageUpdate inp now salt u, ?_, hsu.symm⟩
        rw [← hs]
        have harm : stageUpdate inp now salt u =
            (fun v => if v.id == inp.id then stageUpdate inp now salt v else v) u := by
          simp [hu.2]
        rw [harm]
        exact List.mem_map_of_mem _ hu.1
  · intro s inp su h
    rcases loginUser_cases s inp with hc | hc | hc | ⟨u, hu, _, hc⟩
    · rw [hc] at h; cases h
    · rw [hc] at h; cases h
    · rw [hc] at h; cases h
    · rw [hc] at h
      injection h with h
      exact ⟨u, hu, h.symm⟩
  · intro s now r s' su h hsu
    exact seedLoop_safe DEMO_USERS s now r s' h su hsu

/-- Witness for C2: the record `getUserById` returns from the concrete
single-user store is the safe projection of a stored record. -/
theorem safe_projection_no_leak_witness :
    ∃ u, u ∈ aliceStore.users ∧ toSafeUser aliceUser = toSafeUser u :=
  safe_projection_no_leak.2.2.1 aliceStore 1 (toSafeUser aliceUser) rfl

/-- Claim C7 (amended): for every filter whose search string (when supplied)
contains none of the SQL pattern characters `%`, `_` and `\`, `getUsers`
returns exactly the stored users satisfying the conjunction of the supplied
fields — `role` and `is_active` by equality, `search` as a case-insensitive
substring of username OR email — and with no filter it returns all stored
records.  (A search string containing `%`, `_` or `\` is spliced unescaped
into the `ilike` pattern `` `%${search}%` `` and those characters act as
wildcards, not as literal substring characters; see the counterexample.) -/
theorem getUsers_filter_semantics (s : Store) (f : Option UserFilter)
    (hs : ∀ fl str, f = some fl → fl.search = some str →
          ∀ c ∈ str.data, c ≠ '%' ∧ c ≠ '_' ∧ c ≠ '\\') :
    getUsers s f = (s.users.filter (specPass f)).map toSafeUser := by
  cases f with
  | none =>
    unfold getUsers
    have : s.users.filter (specPass none) = s.users :=
      List.filter_eq_self.mpr (fun a _ => rfl)
    rw [this]
  | some fl =>
    show (s.users.filter (matchesFilter fl)).map toSafeUser =
      (s.users.filter (specPass (some fl))).map toSafeUser
    have : s.users.filter (matchesFilter fl) = s.users.filter (specPass (some fl)) := by
      apply List.filter_congr
      intro u _
      exact matchesFilter_eq_specPass fl u (fun str hstr => hs fl str rfl hstr)
    rw [this]

/-- Witness for C7: filtering the concrete store by the wildcard-free search
`"LICE"` returns exactly the users the spec predicate selects (here: the one
user, by case-insensitive substring match on the username). -/
theorem getUsers_filter_semantics_witness :
    getUsers aliceStore (some { role := none, is_active := none, search := some "LICE" }) =
      (aliceStore.users.filter
        (specPass (some { role := none, is_active := none, search := some "LICE" }))).map
        toSafeUser :=
  getUsers_filter_semantics aliceStore
    (some { role := none, is_active := none, search := some "LICE" })
    (fun fl str hfl hstr => by
      injection hfl with hfl
      subst hfl
      injection hstr with hstr
      subst hstr
      decide)

/-- Counterexample to C7 as stated: with search `"_"` — which occurs as a
literal substring in neither `"alice"` nor `"alice@example.com"` — the claim
says no stored user matches, yet `getUsers` returns the user, because the
underscore reaches `ilike` unescaped and matches any single character. -/
theorem getUsers_wildcard_cex :
    getUsers aliceStore (some { role := none, is_active := none, search := some "_" })
      = [toSafeUser aliceUser]
  ∧ ciContainsSpec "_" aliceUser.username = false
  ∧ ciContainsSpec "_" aliceUser.email = false := by
  refine ⟨by decide, by decide, by decide⟩

/-- Claim C4: `seedDemoUsers` is idempotent over the three fixed demo
specifications processed in list order.  (i) A second call after a successful
one changes nothing and answers the same projections — in particular the same
ids for matching emails.  (ii) A successful call only appends records:
pre-existing rows (including one carrying a demo email) are left entirely
unmodified.  (iii) The answer lists one projection per specification, in
list order, carrying the demo emails.  (iv) When a demo email is already
stored, the projection of its first stored row is included in the answer.
(v) Concretely, seeding the empty store yields exactly 3 records, inserted
with the `hashPassword` digests of the spec passwords and `is_active = true`;
with (i), a second call leaves exactly these 3 records. -/
theorem seedDemoUsers_idempotent :
    (∀ s now now' r s', seedDemoUsers s now = .ok (r, s') →
       seedDemoUsers s' now' = .ok (r, s'))
  ∧ (∀ s now r s', seedDemoUsers s now = .ok (r, s') → ∃ ext, s'.users = s.users ++ ext)
  ∧ (∀ s now r s', seedDemoUsers s now = .ok (r, s') →
       r.map (fun su => su.email) = ["admin@demo.com", "reseller@demo.com", "user@demo.com"])
  ∧ (∀ s now r s' d u rest, seedDemoUsers s now = .ok (r, s') → d ∈ DEMO_USERS →
       s.users.filter (fun v => v.email == d.email) = u :: rest → toSafeUser u ∈ r)
  ∧ (seedDemoUsers emptyStore 0 = .ok (demoSeedResult, demoSeededStore)
     ∧ demoSeededStore.users.length = 3
     ∧ (∀ u ∈ demoSeededStore.users, u.is_active = true)
     ∧ demoSeededStore.users.map (fun u => u.password_hash) =
         [hashPassword "admin123", hashPassword "reseller123", hashPassword "user123"]) := by
  refine ⟨?_, ?_, ?_, ?_, rfl, rfl, by decide, rfl⟩
  · intro s now now' r s' h
    exact seedLoop_ok_again DEMO_USERS s now now' r s' (by decide) h
  · intro s now r s' h
    exact seedLoop_grow DEMO_USERS s now r s' h
  · intro s now r s' h
    exact seedLoop_emails DEMO_USERS s now r s' h
  · intro s now r s' d u rest h hd hf
    exact seedLoop_existing DEMO_USERS s now r s' d u rest (by decide) h hd hf

/-- Witness for C4: applying the theorem at the concrete empty store — the
second call reproduces the first call's projections and store. -/
theorem seedDemoUsers_idempotent_witness :
    seedDemoUsers demoSeededStore 1 = .ok (demoSeedResult, demoSeededStore) :=
  seedDemoUsers_idempotent.1 emptyStore 0 1 demoSeedResult demoSeededStore
    seedDemoUsers_idempotent.2.2.2.2.1

/-- Claim C1 (amended): provided every stored digest is in the format
`Bun.password.hash` produces, `loginUser` realises the four-outcome dispatch:
unknown email gives the invalid-credentials response, a found but inactive
account gives the deactivated response, an active account with failing
verification gives the invalid-credentials response, and successful
verification gives the success response carrying the safe projection — and
one of these outcomes always occurs.  (Without the digest-format premise a
fifth outcome is reachable: a stored non-Bun digest makes the verifier throw
and the catch answers with the server-error response; see the
counterexample.) -/
theorem loginUser_four_outcomes (s : Store) (inp : LoginInput)
    (hdig : ∀ u ∈ s.users, u.password_hash.isBun = true) :
    (s.users.filter (fun u => u.email == inp.email) = [] →
       loginUser s inp = { success := false, user := none, message := "Invalid email or password" })
  ∧ (∀ u rest, s.users.filter (fun u => u.email == inp.email) = u :: rest →
       u.is_active = false →
       loginUser s inp = { success := false, user := none, message := "Account is deactivated" })
  ∧ (∀ u rest, s.users.filter (fun u => u.email == inp.email) = u :: rest →
       u.is_active = true → bunVerify inp.password u.password_hash = .ok false →
       loginUser s inp = { success := false, user := none, message := "Invalid email or password" })
  ∧ (∀ u rest, s.users.filter (fun u => u.email == inp.email) = u :: rest →
       u.is_active = true → bunVerify inp.password u.password_hash = .ok true →
       loginUser s inp = { success := true, user := some (toSafeUser u), message := "Login successful" })
  ∧ (loginUser s inp = { success := false, user := none, message := "Invalid email or password" }
     ∨ loginUser s inp = { success := false, user := none, message := "Account is deactivated" }
     ∨ ∃ u, u ∈ s.users ∧ loginUser s inp =
         { success := true, user := some (toSafeUser u), message := "Login successful" }) := by
  refine ⟨?_, ?_, ?_, ?_, ?_⟩
  · intro hf
    unfold loginUser loginUserBody
    rw [hf]
  · intro u rest hf ha
    unfold loginUser loginUserBody
    rw [hf]
    simp [ha]
  · intro u rest hf ha hv
    unfold loginUser loginUserBody
    rw [hf]
    simp [ha, hv]
  · intro u rest hf ha hv
    unfold loginUser loginUserBody
    rw [hf]
    simp [ha, hv]
  · cases hf : s.users.filter (fun u => u.email == inp.email) with
    | nil =>
      refine Or.inl ?_
      unfold loginUser loginUserBody
      rw [hf]
    | cons u rest =>
      have hu : u ∈ s.users := List.mem_of_mem_filter (hf ▸ List.mem_cons_self u rest)
      have hb := hdig u hu
      by_cases ha : u.is_active
      · cases hph : u.password_hash with
        | sha256demo p =>
          rw [hph] at hb
          cases hb
        | bun g p =>
          cases hpw : inp.password == p
          · refine Or.inl ?_
            unfold loginUser loginUserBody
            rw [hf]
            simp [ha, hph, bunVerify, hpw]
          · refine Or.inr (Or.inr ⟨u, hu, ?_⟩)
            unfold loginUser loginUserBody
            rw [hf]
            simp [ha, hph, bunVerify, hpw]
      · refine Or.inr (Or.inl ?_)
        unfold loginUser loginUserBody
        rw [hf]
        simp [ha]

/-- Witness for C1: on the concrete all-Bun-digest store, logging in with the
correct credentials gives the success outcome. -/
theorem loginUser_four_outcomes_witness :
    loginUser aliceStore { email := "alice@example.com", password := "wonderland" } =
      { success := true, user := some (toSafeUser aliceUser), message := "Login successful" } :=
  (loginUser_four_outcomes aliceStore
      { email := "alice@example.com", password := "wonderland" } (by decide)).2.2.2.1
    aliceUser [] (by decide) rfl (by decide)

/-- Counterexample to C1 as stated: on the store that `seedDemoUsers` builds,
logging in with the correct demo credentials yields a fifth response —
`Bun.password.verify` throws on the stored sha256 hex digest and the catch
answers `"Login failed due to server error"`, which is none of the four
responses the claim allows (its message differs from all three claimed
messages and its success flag is false). -/
theorem loginUser_fifth_outcome_cex :
    seedDemoUsers emptyStore 0 = .ok (demoSeedResult, demoSeededStore)
  ∧ loginUser demoSeededStore { email := "admin@demo.com", password := "admin123" } =
      { success := false, user := none, message := "Login failed due to server error" }
  ∧ ("Login failed due to server error" ≠ "Invalid email or password"
     ∧ "Login failed due to server error" ≠ "Account is deactivated"
     ∧ "Login failed due to server error" ≠ "Login successful") := by
  refine ⟨by decide, by decide, by decide, by decide, by decide⟩

/-- Claim C3 is right and the code is wrong: the digest the core stores for a
demo password via `seedDemoUsers` (`hashPassword`, a bare sha256 hex string)
is not in the format `Bun.password.verify` accepts, so verifying the very
password it was produced from does not return true — the verifier throws
(surfacing as the caught server error), and the seeded demo credentials that
the server banner advertises can never log in. -/
theorem seeded_digest_not_verifiable :
    bunVerify "admin123" (hashPassword "admin123") = .error .invalidHash
  ∧ loginUser demoSeededStore { email := "admin@demo.com", password := "admin123" } =
      { success := false, user := none, message := "Login failed due to server error" }
  ∧ (demoSeededStore.users.filter (fun u => u.email == "admin@demo.com")).map
      (fun u => u.password_hash) = [hashPassword "admin123"] := by
  refine ⟨rfl, by decide, by decide⟩

/-- Claim C10: whenever `loginUser` answers with `success := false` — unknown
email, deactivated account, failed verification, or a caught server error —
the response carries no user data; a user is only ever attached to a
`success := true` response. -/
theorem login_failure_no_user (s : Store) (inp : LoginInput)
    (h : (loginUser s inp).success = false) : (loginUser s inp).user = none := by
  rcases loginUser_cases s inp with hc | hc | hc | ⟨u, _, _, hc⟩
  · rw [hc]
  · rw [hc]
  · rw [hc]
  · rw [hc] at h ⊢
    cases h

/-- Witness for C10 at a concrete store and input: a deactivated-free store
with a wrong password produces a failure response without user data. -/
theorem login_failure_no_user_witness :
    (loginUser aliceStore { email := "alice@example.com", password := "wrong" }).user = none :=
  login_failure_no_user aliceStore { email := "alice@example.com", password := "wrong" } (by decide)

/-- Claim C6: `loginUser` is total and never lets an error escape: either the
lookup/active-check/verify flow completes and its response is returned, or the
thrown error is caught and converted into the literal server-error response. -/
theorem loginUser_catches_errors (s : Store) (inp : LoginInput) :
    (∃ r, loginUserBody s inp = .ok r ∧ loginUser s inp = r)
  ∨ (∃ e, loginUserBody s inp = .error e ∧
      loginUser s inp = { success := false, user := none, message := "Login failed due to server error" }) := by
  cases hb : loginUserBody s inp with
  | ok r => exact Or.inl ⟨r, rfl, by unfold loginUser; rw [hb]⟩
  | error e => exact Or.inr ⟨e, rfl, by unfold loginUser; rw [hb]⟩

/-- Claim C5 (amended): the hasher used by `createUser` and `updateUser`
(`Bun.password.hash`) draws a fresh salt on every call, so two calls on the
same plaintext produce different digests; the demo seeder's `hashPassword`
instead is a deterministic sha256 with a fixed salt string, so two calls on
the same plaintext produce identical digests. -/
theorem bun_hash_salted :
    (∀ p g, (bunHashCall p g).1 ≠ (bunHashCall p ((bunHashCall p g).2)).1)
  ∧ (∀ p g, (hashPasswordCall p g).1 = (hashPasswordCall p ((hashPasswordCall p g).2)).1) := by
  constructor
  · intro p g h
    simp only [bunHashCall, Digest.bun.injEq] at h
    omega
  · intro p g
    rfl

/-- Witness for C5 at a concrete plaintext and salt source. -/
theorem bun_hash_salted_witness :
    (bunHashCall "admin123" 0).1 ≠ (bunHashCall "admin123" ((bunHashCall "admin123" 0).2)).1 :=
  bun_hash_salted.1 "admin123" 0

/-- Counterexample to C5 as stated: the demo seeder's credential hash, run
twice on the same input at a concrete salt source, produces identical
digests — it is not salted per call. -/
theorem seed_hash_deterministic_cex :
    (hashPasswordCall "admin123" 0).1 =
      (hashPasswordCall "admin123" ((hashPasswordCall "admin123" 0).2)).1 := rfl

/-- Claim C8: when no stored record has the requested id, `updateUser` returns
`null` and the store is exactly what it was — nothing created or modified. -/
theorem updateUser_missing_id_noop (s : Store) (inp : UpdateUserInput) (now salt : Nat)
    (h : ∀ u ∈ s.users, u.id ≠ inp.id) :
    updateUser s inp now salt = .ok (none, s) := by
  have hf : s.users.filter (fun v => v.id == inp.id) = [] := by
    rw [List.filter_eq_nil_iff]
    intro u hu
    simp [h u hu]
  unfold updateUser
  rw [hf]

/-- Witness for C8 at a concrete store and a missing id. -/
theorem updateUser_missing_id_noop_witness :
    updateUser aliceStore
      { id := 99, username := some "nobody", email := none, password := none,
        role := none, is_active := none } 10 0 = .ok (none, aliceStore) :=
  updateUser_missing_id_noop aliceStore
    { id := 99, username := some "nobody", email := none, password := none,
      role := none, is_active := none } 10 0 (by decide)

/-- Claim C9: an update supplying only `id` and `username` against an existing
record changes only the username — the returned record keeps `email`, `role`,
`is_active` and `created_at`, its `updated_at` strictly advances past the old
value — and in the store every touched row changes only in `username` and
`updated_at`. -/
theorem updateUser_username_frame (s : Store) (i : Nat) (nm : String) (now salt : Nat)
    (u : User) (rest : List User) (res : Option SafeUser) (s' : Store)
    (hfind : s.users.filter (fun v => v.id == i) = u :: rest)
    (hclock : u.updated_at < now)
    (hok : updateUser s ⟨i, some nm, none, none, none, none⟩ now salt = .ok (res, s')) :
    (∃ su, res = some su ∧ su.username = nm ∧ su.email = u.email ∧ su.role = u.role
       ∧ su.is_active = u.is_active ∧ su.created_at = u.created_at
       ∧ u.updated_at < su.updated_at)
  ∧ s'.users = s.users.map (fun v => if v.id == i then
      { v with username := nm, updated_at := now } else v) := by
  rw [updateUser_eq_cons s ⟨i, some nm, none, none, none, none⟩ now salt u rest hfind] at hok
  by_cases hc : updateConflict s ⟨i, some nm, none, none, none, none⟩
  · rw [if_pos hc] at hok
    cases hok
  · rw [if_neg hc] at hok
    simp only [Except.ok.injEq, Prod.mk.injEq] at hok
    obtain ⟨hres, hs⟩ := hok
    have hstage : ∀ v : User,
        stageUpdate ⟨i, some nm, none, none, none, none⟩ now salt v =
        { v with username := nm, updated_at := now } := by
      intro v
      simp [stageUpdate]
    constructor
    · refine ⟨toSafeUser { u with username := nm, updated_at := now }, ?_, rfl, rfl, rfl, rfl, rfl, hclock⟩
      rw [← hres, hstage u]
    · rw [← hs]
      apply List.map_congr_left
      intro v _
      by_cases hv : v.id == i
      · rw [if_pos hv, if_pos hv, hstage v]
      · rw [if_neg hv, if_neg hv]

/-- Witness for C9: updating only the username of the concrete single-user
store changes exactly the username and the timestamp. -/
theorem updateUser_username_frame_witness :
    (∃ su, (some (toSafeUser aliceUpdated) : Option SafeUser) = some su
       ∧ su.username = "alicia" ∧ su.email = aliceUser.email ∧ su.role = aliceUser.role
       ∧ su.is_active = aliceUser.is_active ∧ su.created_at = aliceUser.created_at
       ∧ aliceUser.updated_at < su.updated_at)
  ∧ aliceStore2.users = aliceStore.users.map (fun v => if v.id == 1 then
      { v with username := "alicia", updated_at := 10 } else v) :=
  updateUser_username_frame aliceStore 1 "alicia" 10 0 aliceUser [] (some (toSafeUser aliceUpdated))
    aliceStore2 (by decide) (by decide) rfl

end UserCore
